import Mathlib

/-!
# Verification of the j2lint indentation checker (`j2lint/linter/indenter/node.py`)

This development gives a shallow embedding of `Node.check_indentation` and its
helpers from `src/j2lint/linter/indenter/node.py`, and settles the frozen
claims about it.

Modelling conventions, mirroring the Python source:

* The module-level mutable list `jinja_node_stack`, and the class-level
  (hence shared between every `Node` instance) list `Node.children`, are
  carried in an explicit `CheckState` record together with an object-identity
  counter.  Python compares nodes with `!=`, which for this class is object
  identity; every `Node()` allocation draws a fresh `id` from the counter, and
  node comparisons in the embedding compare these ids.
* `Node.children` is a class attribute that is only ever appended to, never
  read, so it is carried as a single shared list.  The `parent` attribute is
  used in the source only to reach `parent.children`, which is that same
  shared list, so no parent back-reference is needed in the embedding.
* The fields `node_start` / `node_end` are written by the source but never
  read back; they are kept for fidelity.
* Recursion and the `while` loop are driven by explicit fuel: each loop
  iteration consumes one unit and passes the decremented fuel both to the
  recursive call it makes and to the rest of its own loop.  Fuel is an
  artifact bounding execution length and never influences which branch is
  taken.  `StepResult.fuelOut` marks an execution cut short by fuel
  exhaustion; an execution that yields `fuelOut` at every fuel is a
  non-terminating Python execution.
* Python exceptions are modelled by `PyError`: `indexError` is the uncaught
  `IndexError` from `jinja_node_stack[-1]` on an empty list, `typeError` is
  the uncaught `TypeError` from comparing `None` with an `int` in
  `while line_no < len(lines)` (and from `x in None` after a failed
  `get_tuple`), and the two `linter*` constructors are the two
  `raise JinjaLinterError(...)` sites, carrying the offending tag.

The files `j2lint/linter/indenter/statement.py` and `j2lint/utils.py` are not
part of the given sources; the definitions below that come from them are
modelled from the spec and marked as such in their doc comments.
-/

/-- `INDENT_SHIFT` from node.py: columns a nested body is shifted. -/
def INDENT_SHIFT : Nat := 4

/-- `DEFAULT_WHITESPACES` from node.py: offset added to the expected indent. -/
def DEFAULT_WHITESPACES : Nat := 1

/-- Modelled from the spec: `JINJA_STATEMENT_TAG_NAMES` of
`j2lint/linter/indenter/statement.py` is not in the given sources.  The spec
describes a static table of tag families, each an ordered sequence
`[begin, middle..., end]`, naming the constructs `if/elif/else/endif`,
`for/else/endfor` and `block/endblock`. -/
def JINJA_STATEMENT_TAG_NAMES : List (List String) :=
  [["for", "else", "endfor"],
   ["if", "elif", "else", "endif"],
   ["block", "endblock"]]

/-- Modelled from the spec: `JINJA_INTERMEDIATE_TAG_NAMES` of statement.py is
not in the given sources.  The spec names `set` and `include` as the
free-standing intermediate tags that never nest. -/
def JINJA_INTERMEDIATE_TAG_NAMES : List String := ["set", "include"]

/-- `BEGIN_TAGS = [item[0] for item in JINJA_STATEMENT_TAG_NAMES]`. -/
def BEGIN_TAGS : List String := JINJA_STATEMENT_TAG_NAMES.map (fun f => f.headD "")

/-- `END_TAGS = [item[-1] for item in JINJA_STATEMENT_TAG_NAMES]`. -/
def END_TAGS : List String := JINJA_STATEMENT_TAG_NAMES.map (fun f => f.getLastD "")

/-- `MIDDLE_TAGS = list(flatten([[i[1:-1] for i in JINJA_STATEMENT_TAG_NAMES]]))`:
the interior variants of every family.  `flatten` (from j2lint.utils, not in
the given sources) is modelled from the spec as full flattening to atoms. -/
def MIDDLE_TAGS : List String :=
  (JINJA_STATEMENT_TAG_NAMES.map (fun f => (f.drop 1).dropLast)).flatten

/-- Modelled from the spec: `get_tuple` of j2lint.utils is not in the given
sources.  The spec says the tag grammar exposes, for a given tag, the full
ordered variant list of its family; `get_tuple(tuples, item)` returns the
first tuple containing `item`, or `None`. -/
def get_tuple (tuples : List (List String)) (item : String) : Option (List String) :=
  tuples.find? (fun t => t.contains item)

/-- Modelled from the spec: the `JinjaStatement` class of statement.py is not
in the given sources.  Per the spec's data model, a statement carries the
tag words of its content, its 1-based source line number, the raw line text,
and `begin`, the column at which the statement starts, used as the observed
indentation signal; the spec's worked example fixes the convention that a
line with 4 leading spaces has `begin = 5` and one with 2 leading spaces has
`begin = 3`, i.e. `begin` is the 1-based column of the statement's first
character. -/
structure JinjaStatement where
  begin : Nat
  words : List String
  start_line_no : Nat
  line : String
deriving Repr, DecidableEq

/-- The `Node` of node.py.  `id` models Python object identity (see module
doc); the other fields are the instance attributes the source reads or
writes.  `statement.words[0]` is the tag. -/
structure Node where
  id : Nat
  tag : String
  node_start : Nat
  node_end : Nat
  expected_indent : Nat
  statement : JinjaStatement
deriving Repr, DecidableEq

/-- The `(line number, delimited line, message)` triple built by
`Node.create_indentation_error`. -/
abbrev IndentationError := Nat × String × String

/-- Modelled from the spec: `delimit_jinja_statement` of j2lint.utils is not
in the given sources; diagnostics carry the raw line re-wrapped in statement
delimiters. -/
def delimit_jinja_statement (line : String) : String :=
  "\x7b%" ++ line ++ "%\x7d"

/-- `Node.create_indentation_error`. -/
def create_indentation_error (node : Node) (message : String) : IndentationError :=
  (node.statement.start_line_no, delimit_jinja_statement node.statement.line, message)

/-- `Node.check_indent_level`: appends a diagnostic exactly when the observed
column differs from `expected_indent + DEFAULT_WHITESPACES`.  (The `self`
receiver is unused by the source method, so it is not a parameter.) -/
def check_indent_level (result : List IndentationError) (node : Node) :
    List IndentationError :=
  let actual := node.statement.begin
  let expected := node.expected_indent + DEFAULT_WHITESPACES
  if actual ≠ expected then
    result ++ [create_indentation_error node
      ("Bad Indentation, expected " ++ toString expected ++ ", got " ++ toString actual)]
  else result

/-- The mutable state shared across the recursion (and, in the source, across
calls): the module-level `jinja_node_stack` (top of stack = last element, as
for a Python list), the object-identity `counter`, and the class-level shared
`Node.children` list (write-only in the source). -/
structure CheckState where
  stack : List Node
  counter : Nat
  children : List Node
deriving Repr, DecidableEq

/-- Uncaught Python exceptions of `check_indentation` (see module doc). -/
inductive PyError where
  | indexError
  | typeError
  | linterOutOfOrder (tag : String)
  | linterUnsupported (tag : String)
deriving Repr, DecidableEq

/-- How a `check_indentation` call ends: a Python `return` (with `none`
modelling falling off the end of the function, i.e. returning `None`), an
uncaught exception, or fuel exhaustion. -/
inductive StepResult where
  | ret (lineNo : Option Nat)
  | err (e : PyError)
  | fuelOut
deriving Repr, DecidableEq

/-- Everything a call returns: the `result` diagnostics list, the shared
state, and how the call ended. -/
structure CheckOut where
  result : List IndentationError
  st : CheckState
  out : StepResult
deriving Repr, DecidableEq

/-- `Node.create_node`: allocates a node (fresh identity) for the statement at
`line_no`, with `expected_indent` the current `indent_level`.  The source also
sets `node.parent = self`, which is observable only through the shared
children list and is therefore not recorded. -/
def create_node (st : CheckState) (stmt : JinjaStatement) (line_no indent_level : Nat) :
    Node × CheckState :=
  (⟨st.counter, stmt.words.headD "", line_no, line_no, indent_level, stmt⟩,
   ⟨st.stack, st.counter + 1, st.children⟩)

/-- `Node.check_indentation`, embedded line by line (see node.py lines 50-103
and the module doc for the conventions).  `selfId` is the identity of the
receiver `self`; the receiver's other attributes are never read by the
method.  Branches, in source order:

* `line_no < len(lines)` fails: the `while` loop ends and the function
  returns `None`.
* BEGIN tag: push the node, append it to the shared children list, recurse
  into the new node's frame at `indent_level + INDENT_SHIFT`; on a returned
  index, check the begin node's own indent and `continue` at that index; the
  source then evaluates `line_no < len(lines)` with `line_no = None` when the
  inner call fell off the end of the input, an uncaught `TypeError`.
* END tag: `jinja_node_stack[-1]` (an `IndexError` on an empty stack); if
  `'end' + top.tag` equals the tag: early return of `line_no` when the top is
  not `self`; otherwise pop, record the end node in the shared children list,
  and either check its indent and return `line_no + 1` (when the popped node
  is `self`, which the pop guarantees) or raise the out-of-order
  `JinjaLinterError`.  If the name does not match, no branch advances
  `line_no` and the `while` loop re-runs on the same line.
* MIDDLE tag: `jinja_node_stack[-1]` again; look up the open family with
  `get_tuple` (membership in `None` would be a `TypeError`); a member tag
  early-returns when the top is not `self`, else recurses into the middle
  node's frame at the matched node's `expected_indent + INDENT_SHIFT` and
  returns the inner result after checking the middle node's indent; a
  non-member raises the unsupported-tag `JinjaLinterError`.
* INTERMEDIATE tag: record the node, advance one line, check its indent,
  continue.
* anything else raises the unsupported-tag `JinjaLinterError`. -/
def check_indentation : Nat → Nat → List IndentationError → List JinjaStatement →
    Nat → Nat → CheckState → CheckOut
  | 0, _, result, _, _, _, st => ⟨result, st, .fuelOut⟩
  | fuel + 1, selfId, result, lines, line_no, indent_level, st =>
    if h : line_no < lines.length then
      let stmt := lines.get ⟨line_no, h⟩
      let p := create_node st stmt line_no indent_level
      let node := p.1
      let st1 := p.2
      if BEGIN_TAGS.contains node.tag then
        let st2 : CheckState := ⟨st1.stack ++ [node], st1.counter, st1.children ++ [node]⟩
        let inner := check_indentation fuel node.id result lines (line_no + 1)
          (indent_level + INDENT_SHIFT) st2
        match inner.out with
        | .ret r =>
          let result2 := check_indent_level inner.result node
          match r with
          | some n => check_indentation fuel selfId result2 lines n indent_level inner.st
          | none => ⟨result2, inner.st, .err .typeError⟩
        | _ => inner
      else if END_TAGS.contains node.tag then
        match st1.stack.getLast? with
        | none => ⟨result, st1, .err .indexError⟩
        | some top =>
          if ("end" ++ top.tag) = node.tag then
            if top.id ≠ selfId then
              ⟨result, st1, .ret (some line_no)⟩
            else
              let matchnode := top
              let node2 : Node :=
                { node with node_end := line_no, expected_indent := matchnode.expected_indent }
              let st2 : CheckState := ⟨st1.stack.dropLast, st1.counter, st1.children ++ [node2]⟩
              if matchnode.id = selfId then
                ⟨check_indent_level result node2, st2, .ret (some (line_no + 1))⟩
              else
                ⟨result, st2, .err (.linterOutOfOrder node2.tag)⟩
          else
            check_indentation fuel selfId result lines line_no indent_level st1
      else if MIDDLE_TAGS.contains node.tag then
        match st1.stack.getLast? with
        | none => ⟨result, st1, .err .indexError⟩
        | some top =>
          match get_tuple JINJA_STATEMENT_TAG_NAMES top.tag with
          | none => ⟨result, st1, .err .typeError⟩
          | some begin_tag_tuple =>
            if begin_tag_tuple.contains node.tag then
              if top.id ≠ selfId then
                ⟨result, st1, .ret (some line_no)⟩
              else
                let matchnode := top
                let node2 : Node :=
                  { node with node_end := line_no, expected_indent := matchnode.expected_indent }
                let st2 : CheckState := ⟨st1.stack, st1.counter, st1.children ++ [node2]⟩
                let inner := check_indentation fuel node2.id result lines (line_no + 1)
                  (node2.expected_indent + INDENT_SHIFT) st2
                match inner.out with
                | .ret r => ⟨check_indent_level inner.result node2, inner.st, .ret r⟩
                | _ => inner
            else
              ⟨result, st1, .err (.linterUnsupported node.tag)⟩
      else if JINJA_INTERMEDIATE_TAG_NAMES.contains node.tag then
        let st2 : CheckState := ⟨st1.stack, st1.counter, st1.children ++ [node]⟩
        check_indentation fuel selfId (check_indent_level result node) lines (line_no + 1)
          indent_level st2
      else
        ⟨result, st1, .err (.linterUnsupported node.tag)⟩
    else
      ⟨result, st, .ret none⟩

/-- The state before any call has run: empty stack, no allocated objects,
empty shared children list. -/
def initState : CheckState := ⟨[], 0, []⟩

/-- One checker invocation as the (missing) rule layer performs it, modelled
from the spec's external interface: allocate a fresh root node and run
`root.check_indentation(result, lines, 0)` with a fresh `result` list and the
default `indent_level = 0`, over the shared state `st`. -/
def runCheck (fuel : Nat) (lines : List JinjaStatement) (st : CheckState) : CheckOut :=
  check_indentation fuel st.counter [] lines 0 0 ⟨st.stack, st.counter + 1, st.children⟩

/-- What the BEGIN branch does with the value of its recursive call: the
continuation of node.py lines 57-60 (and the `TypeError` continuation when
the inner call returned `None`). -/
def begin_cont (g selfId : Nat) (node : Node) (lines : List JinjaStatement) (ind : Nat)
    (inner : CheckOut) : CheckOut :=
  match inner.out with
  | .ret r =>
    let result2 := check_indent_level inner.result node
    match r with
    | some n => check_indentation g selfId result2 lines n ind inner.st
    | none => ⟨result2, inner.st, .err .typeError⟩
  | _ => inner

/-- Renames an allocated node by shifting its identity, leaving every other
attribute alone.  Used to relate the nodes a run allocates to the nodes the
same run allocates when started from a later allocation counter. -/
def shiftNode (d : Nat) (n : Node) : Node := { n with id := n.id + d }

/-- Splits a character list at the first occurrence of `delim`, returning the
part before it and the part after it, or `none` when `delim` does not occur. -/
def findSub (delim : List Char) : List Char → Option (List Char × List Char)
  | [] => if delim.isEmpty then some ([], []) else none
  | c :: rest =>
    if delim.isPrefixOf (c :: rest) then some ([], (c :: rest).drop delim.length)
    else
      match findSub delim rest with
      | some (pre, post) => some (c :: pre, post)
      | none => none

/-- Splits a character list into maximal space-free words. -/
def splitWords : List Char → List Char → List String
  | [], cur => if cur.isEmpty then [] else [String.mk cur.reverse]
  | c :: rest, cur =>
    if c = ' ' then
      if cur.isEmpty then splitWords rest []
      else String.mk cur.reverse :: splitWords rest []
    else splitWords rest (c :: cur)

/-- Modelled from the spec: the statement extractor (statement.py /
`get_jinja_statements`) is not in the given sources.  Per the spec it locates
the first statement delimiter pair on the line, takes the first
whitespace-delimited token inside as the tag, skips lines without a
statement (or with an unterminated or empty one), and reports the observed
indentation column (see `JinjaStatement.begin`). -/
def extractStatement (raw : String) (ln : Nat) : Option JinjaStatement :=
  match findSub ['\x7b', '%'] raw.data with
  | none => none
  | some (_, afterOpen) =>
    match findSub ['%', '\x7d'] afterOpen with
    | none => none
    | some (content, _) =>
      match splitWords content [] with
      | [] => none
      | ws =>
        some ⟨(raw.data.takeWhile (fun c => c = ' ')).length + 1, ws, ln, raw⟩

/-- Modelled from the spec: a file's lines, in order, 1-based numbering;
lines without a statement produce none and are skipped. -/
def extractStatements (fileLines : List String) : List JinjaStatement :=
  fileLines.enum.filterMap (fun piece => extractStatement piece.2 (piece.1 + 1))

/-! ### Concrete inputs used by individual claims -/

/-- An `if` block closed by an `endfor`: the mismatched-closer input of C1,
perfectly indented apart from the mismatch. -/
def c1lines : List JinjaStatement :=
  extractStatements ["\x7b% if x %\x7d", "\x7b% endfor %\x7d"]

/-- A `block` opened and never closed: the unterminated-block input of C3. -/
def c3lines : List JinjaStatement :=
  extractStatements ["\x7b% block a %\x7d"]

/-- An `if` block whose opening line, body line and closing line are all
mis-indented: used to exhibit the emission order of diagnostics (C5). -/
def c5lines : List JinjaStatement :=
  extractStatements
    ["  \x7b% if x %\x7d", "      \x7b% set y %\x7d", "  \x7b% endif %\x7d"]

/-- A correctly nested file indented with width 2 instead of 4: used to show
that no caller-supplied argument of `check_indentation` can make the checker
accept another indentation width (C6). -/
def c6lines : List JinjaStatement :=
  extractStatements ["\x7b% if x %\x7d", "  \x7b% set y %\x7d", "\x7b% endif %\x7d"]

/-- A `for` block with an `else` directly inside it (legal: `else` is a
variant of the `for` family), everything well indented (C7). -/
def c7alines : List JinjaStatement :=
  extractStatements
    ["\x7b% for x %\x7d", "    \x7b% set y %\x7d", "\x7b% else %\x7d",
     "    \x7b% set z %\x7d", "\x7b% endfor %\x7d"]

/-- A `for` block with an `elif` inside it (`elif` is not a variant of the
`for` family) (C7). -/
def c7blines : List JinjaStatement :=
  extractStatements ["\x7b% for x %\x7d", "    \x7b% elif y %\x7d"]

/-- An `if`/`else`/`endif` followed by a `set` statement whose line is
shifted one column right of its expected column; every other line is
perfectly indented (C8). -/
def c8lines : List JinjaStatement :=
  extractStatements
    ["\x7b% if x %\x7d", "\x7b% else %\x7d", "\x7b% endif %\x7d", " \x7b% set y %\x7d"]

/-- The same input as `c8lines` with the shifted line restored to its
expected column (the fully correct reference input of C8). -/
def c8goodlines : List JinjaStatement :=
  extractStatements
    ["\x7b% if x %\x7d", "\x7b% else %\x7d", "\x7b% endif %\x7d", "\x7b% set y %\x7d"]

/-- A file whose first statement is an End tag (C9). -/
def c9endlines : List JinjaStatement :=
  extractStatements ["\x7b% endif %\x7d"]

/-- A file whose first statement is a Middle tag (C9). -/
def c9midlines : List JinjaStatement :=
  extractStatements ["\x7b% else %\x7d"]

/-! ### A generator of well-nested inputs without middle tags

`TItem`/`TForest` describe a sequence of statements that is correctly
*nested*: an item is either a single intermediate statement or a compound
block (an opening tag, a well-nested body, the matching closing tag).
Middle-tag variants (`else`/`elif`) are not generated.  Each generated
statement carries an arbitrary observed indentation column, so the generated
inputs range over all indentations of all well-nested middle-free tag
sequences.  `renderF ln F` lists the statements with consecutive source line
numbers starting at `ln`; the raw line text of a statement is its tag. -/

mutual
inductive TItem where
  | inter (tag : String) (col : Nat)
  | blk (fam : List String) (bcol : Nat) (body : TForest) (ecol : Nat)
deriving Repr, DecidableEq
inductive TForest where
  | nil
  | cons (item : TItem) (rest : TForest)
deriving Repr, DecidableEq
end

mutual
/-- Number of statements an item renders to. -/
def lenI : TItem → Nat
  | .inter _ _ => 1
  | .blk _ _ body _ => 2 + lenF body
/-- Number of statements a forest renders to. -/
def lenF : TForest → Nat
  | .nil => 0
  | .cons i rest => lenI i + lenF rest
end

/-- Number of top-level items of a forest: the number of `while` iterations
the frame scanning the forest performs for it (each item is consumed by
exactly one iteration of its own frame). -/
def itemsF : TForest → Nat
  | .nil => 0
  | .cons _ rest => 1 + itemsF rest

mutual
/-- Fuel sufficient to process an item's inner frames (beyond the one
iteration of the enclosing frame that consumes the item). -/
def costI : TItem → Nat
  | .inter _ _ => 0
  | .blk _ _ body _ => 1 + max (costF body) (itemsF body + 1)
/-- Fuel sufficient for a frame to process a whole forest. -/
def costF : TForest → Nat
  | .nil => 0
  | .cons i rest => 1 + max (costI i) (costF rest)
end

mutual
/-- The item uses only known tag families / intermediate tag names. -/
def validI : TItem → Bool
  | .inter tag _ => JINJA_INTERMEDIATE_TAG_NAMES.contains tag
  | .blk fam _ body _ => JINJA_STATEMENT_TAG_NAMES.contains fam && validF body
/-- Every item of the forest is valid. -/
def validF : TForest → Bool
  | .nil => true
  | .cons i rest => validI i && validF rest
end

mutual
/-- The statements an item renders to, with source lines from `ln`. -/
def renderI : Nat → TItem → List JinjaStatement
  | ln, .inter tag col => [⟨col, [tag], ln, tag⟩]
  | ln, .blk fam bcol body ecol =>
    ⟨bcol, [fam.headD ""], ln, fam.headD ""⟩ ::
      (renderF (ln + 1) body ++
        [⟨ecol, [fam.getLastD ""], ln + 1 + lenF body, fam.getLastD ""⟩])
/-- The statements a forest renders to, with source lines from `ln`. -/
def renderF : Nat → TForest → List JinjaStatement
  | _, .nil => []
  | ln, .cons i rest => renderI ln i ++ renderF (ln + lenI i) rest
end

mutual
/-- The diagnostics the checker emits for an item whose frame runs at
indentation level `dlev`, in emission order: for a block, first the body's
diagnostics, then the closing tag's, then the opening tag's. -/
def errsI : Nat → Nat → TItem → List IndentationError
  | dlev, ln, .inter tag col =>
    if col = dlev + DEFAULT_WHITESPACES then []
    else [(ln, delimit_jinja_statement tag,
      "Bad Indentation, expected " ++ toString (dlev + DEFAULT_WHITESPACES) ++
        ", got " ++ toString col)]
  | dlev, ln, .blk fam bcol body ecol =>
    errsF (dlev + INDENT_SHIFT) (ln + 1) body ++
      ((if ecol = dlev + DEFAULT_WHITESPACES then []
        else [(ln + 1 + lenF body, delimit_jinja_statement (fam.getLastD ""),
          "Bad Indentation, expected " ++ toString (dlev + DEFAULT_WHITESPACES) ++
            ", got " ++ toString ecol)]) ++
       (if bcol = dlev + DEFAULT_WHITESPACES then []
        else [(ln, delimit_jinja_statement (fam.headD ""),
          "Bad Indentation, expected " ++ toString (dlev + DEFAULT_WHITESPACES) ++
            ", got " ++ toString bcol)]))
/-- The diagnostics the checker emits for a forest (see `errsI`). -/
def errsF : Nat → Nat → TForest → List IndentationError
  | _, _, .nil => []
  | dlev, ln, .cons i rest => errsI dlev ln i ++ errsF dlev (ln + lenI i) rest
end

mutual
/-- The source lines of the item's mis-indented statements, in the order the
checker checks them. -/
def flawsI : Nat → Nat → TItem → List Nat
  | dlev, ln, .inter _ col => if col = dlev + DEFAULT_WHITESPACES then [] else [ln]
  | dlev, ln, .blk _ bcol body ecol =>
    flawsF (dlev + INDENT_SHIFT) (ln + 1) body ++
      ((if ecol = dlev + DEFAULT_WHITESPACES then [] else [ln + 1 + lenF body]) ++
       (if bcol = dlev + DEFAULT_WHITESPACES then [] else [ln]))
/-- The source lines of the forest's mis-indented statements, in check
order. -/
def flawsF : Nat → Nat → TForest → List Nat
  | _, _, .nil => []
  | dlev, ln, .cons i rest => flawsI dlev ln i ++ flawsF dlev (ln + lenI i) rest
end

mutual
/-- Every statement of the item sits at its expected column for a frame at
indentation level `dlev`: the opening and closing tags of a block at
`dlev + DEFAULT_WHITESPACES`, its body at `dlev + INDENT_SHIFT` more. -/
def correctI : Nat → TItem → Bool
  | dlev, .inter _ col => col = dlev + DEFAULT_WHITESPACES
  | dlev, .blk _ bcol body ecol =>
    (bcol = dlev + DEFAULT_WHITESPACES) && (ecol = dlev + DEFAULT_WHITESPACES) &&
      correctF (dlev + INDENT_SHIFT) body
/-- Every statement of the forest sits at its expected column. -/
def correctF : Nat → TForest → Bool
  | _, .nil => true
  | dlev, .cons i rest => correctI dlev i && correctF dlev rest
end

/-- A concrete well-indented forest: a `block` containing an `if` block with
a `set` body, followed by a top-level `include` — used as witness input. -/
def sampleForest : TForest :=
  .cons (.blk ["block", "endblock"] 1
          (.cons (.blk ["if", "elif", "else", "endif"] 5
                   (.cons (.inter "set" 9) .nil) 5)
            .nil) 1)
    (.cons (.inter "include" 1) .nil)

/-- `sampleForest` with the inner `set` statement shifted one column right. -/
def sampleFlawed : TForest :=
  .cons (.blk ["block", "endblock"] 1
          (.cons (.blk ["if", "elif", "else", "endif"] 5
                   (.cons (.inter "set" 10) .nil) 5)
            .nil) 1)
    (.cons (.inter "include" 1) .nil)

/-- An `if` block whose opening line sits at column 2 instead of 1 and whose
body line sits at column 7 instead of 5, with a correctly placed closer:
used to witness the emission order of diagnostics (C5). -/
def c5forest : TForest :=
  .cons (.blk ["if", "elif", "else", "endif"] 2
          (.cons (.inter "set" 7) .nil) 1)
    .nil

/-- A well-indented `if`/`else`/`endif` with one body statement in each arm:
a correctly nested, correctly indented input containing a middle tag (C4). -/
def c4elselines : List JinjaStatement :=
  extractStatements
    ["\x7b% if x %\x7d", "    \x7b% set y %\x7d", "\x7b% else %\x7d",
     "    \x7b% set z %\x7d", "\x7b% endif %\x7d"]

/-!
## Theorems

First, sanity checks of the embedding against the spec's worked example
(section 8 of the spec): a conforming body produces no diagnostic and a
2-space-indented body is flagged as expected 5, got 3.
-/

example :
    (runCheck 10 (extractStatements
      ["\x7b% if x %\x7d", "    \x7b% set y %\x7d", "\x7b% endif %\x7d"]) initState).result
      = [] := by decide

example :
    (runCheck 10 (extractStatements
      ["\x7b% if x %\x7d", "  \x7b% set y %\x7d", "\x7b% endif %\x7d"]) initState).result
      = [(2, "\x7b%  \x7b% set y %\x7d%\x7d", "Bad Indentation, expected 5, got 3")] := by
  decide

/-- Claim C9: on an input whose first statement is an End tag (here
`endif`), and likewise on one whose first statement is a Middle tag (here
`else`), `check_indentation` evaluates `jinja_node_stack[-1]` on the empty
stack and dies with an uncaught `IndexError`: it neither returns a
diagnostic nor raises the checker's own `JinjaLinterError`. -/
theorem c9_leading_end_or_middle_tag_indexerror :
    ((runCheck 5 c9endlines initState).result = [] ∧
      (runCheck 5 c9endlines initState).out = .err .indexError) ∧
    ((runCheck 5 c9midlines initState).result = [] ∧
      (runCheck 5 c9midlines initState).out = .err .indexError) := by decide

/-- Claim C3 (the code, evaluated at the failing input): on a file holding a
single unclosed `block` statement, `check_indentation` ends with the
uncaught `TypeError` from `while None < len(lines)` — not with a structural
error identifying the opening statement's line — and reports nothing. -/
theorem c3_unterminated_block_dies_with_typeerror :
    (runCheck 5 c3lines initState).out = .err .typeError ∧
    (runCheck 5 c3lines initState).result = [] := by decide

/-- Claim C7: an `else` directly inside a `for` block is accepted — the run
emits no diagnostic and no error (it returns normally) — while an `elif`
inside a `for` block raises the unsupported-tag `JinjaLinterError`, a fatal
structural error. -/
theorem c7_middle_tag_family_validation :
    ((runCheck 20 c7alines initState).result = [] ∧
      (runCheck 20 c7alines initState).out = .ret (some 4)) ∧
    (runCheck 20 c7blines initState).out = .err (.linterUnsupported "elif") := by decide

/-- Claim C5, counterexample: on `c5lines` (a mis-indented `if` line, a
mis-indented body line, a mis-indented `endif` line) the checker reports the
body line (source line 2) and the closing line (source line 3) before the
opening line (source line 1), so the diagnostics are not sorted by source
line number. -/
theorem c5_counterexample_diagnostics_not_in_document_order :
    (runCheck 20 c5lines initState).result.map Prod.fst = [2, 3, 1] ∧
    ¬ List.Sorted (· ≤ ·) ((runCheck 20 c5lines initState).result.map Prod.fst) := by
  decide

/-- Claim C8, counterexample: `c8lines` is correctly nested and correctly
indented except that its last line (`set`, source line 4) is shifted one
column right of its expected column, yet the run reports nothing at all
(instead of exactly one `IndentationError` for line 4): the `else`-block
early-return makes the whole run stop at index 2, before the shifted line is
ever checked.  The fully corrected input `c8goodlines` behaves identically. -/
theorem c8_counterexample_shifted_line_unreported :
    (runCheck 20 c8lines initState).result = [] ∧
    (runCheck 20 c8lines initState).out = .ret (some 2) ∧
    (runCheck 20 c8goodlines initState).result = [] ∧
    (runCheck 20 c8goodlines initState).out = .ret (some 2) := by decide

/-! ### Helper lemmas -/

/-- `check_indent_level` only ever appends to the list it is given. -/
theorem check_indent_level_append (a b : List IndentationError) (node : Node) :
    check_indent_level (a ++ b) node = a ++ check_indent_level b node := by
  rw [check_indent_level, check_indent_level]
  split
  · simp
  · simp

/-- `check_indent_level` written with its contribution split off. -/
theorem check_indent_level_eq (res : List IndentationError) (node : Node) :
    check_indent_level res node = res ++ check_indent_level [] node := by
  have h := check_indent_level_append res [] node
  simpa using h

/-- The `result` list is pure accumulation: a call's diagnostics, final state
and outcome are those of the same call started from an empty `result` list,
with the incoming list prepended.  In particular nothing the checker does —
no branch, no raise, no returned index — depends on the diagnostics recorded
so far. -/
theorem result_accumulates :
    ∀ fuel selfId res lines ln ind st,
      check_indentation fuel selfId res lines ln ind st =
        ⟨res ++ (check_indentation fuel selfId [] lines ln ind st).result,
         (check_indentation fuel selfId [] lines ln ind st).st,
         (check_indentation fuel selfId [] lines ln ind st).out⟩ := by
  intro fuel
  induction fuel with
  | zero =>
    intro selfId res lines ln ind st
    simp [check_indentation]
  | succ f ih =>
    intro selfId res lines ln ind st
    have iho : ∀ s r l n i t, (check_indentation f s r l n i t).out =
        (check_indentation f s [] l n i t).out := by
      intro s r l n i t; rw [ih s r l n i t]
    have ihr : ∀ s r l n i t, (check_indentation f s r l n i t).result =
        r ++ (check_indentation f s [] l n i t).result := by
      intro s r l n i t; rw [ih s r l n i t]
    have ihs : ∀ s r l n i t, (check_indentation f s r l n i t).st =
        (check_indentation f s [] l n i t).st := by
      intro s r l n i t; rw [ih s r l n i t]
    rw [check_indentation, check_indentation]
    simp only [create_node]
    split
    · rename_i hlt
      split
      · -- BEGIN branch
        rw [iho _ res, ihr _ res, ihs _ res]
        split
        · -- inner returned
          split
          · -- some n: the loop continues at n
            rw [check_indent_level_append res, ih selfId (res ++ _),
              ih selfId (check_indent_level _ _)]
            simp [List.append_assoc]
          · -- none: TypeError
            rw [check_indent_level_append res]
        · -- inner err / fuelOut: the branch result is inner itself
          rw [ih]
      · split
        · -- END branch
          split
          · simp
          · split
            · split
              · simp
              · split
                · rw [check_indent_level_eq res]
                · simp
            · -- name mismatch: loop on the same line
              rw [ih _ res]
        · split
          · -- MIDDLE branch
            split
            · simp
            · split
              · simp
              · split
                · split
                  · simp
                  · rw [iho _ res, ihr _ res, ihs _ res]
                    split
                    · rw [check_indent_level_append res]
                    · rw [ih]
                · simp
          · split
            · -- INTERMEDIATE branch
              rw [ih selfId (check_indent_level res _), ih selfId (check_indent_level [] _),
                check_indent_level_eq res]
              simp [List.append_assoc]
            · simp
    · simp

/-- In the END-tag branch with a name mismatch (`'end' + top.tag` differs
from the tag at line `ln`), no branch advances `line_no`: the `while` loop
re-runs forever on the same line.  At every fuel the run is cut short with
the diagnostics untouched. -/
theorem end_mismatch_loop
    (lines : List JinjaStatement) (ln : Nat) (s : JinjaStatement)
    (hs : lines.get? ln = some s)
    (hB : BEGIN_TAGS.contains (s.words.headD "") = false)
    (hE : END_TAGS.contains (s.words.headD "") = true) :
    ∀ fuel selfId res ind st top,
      st.stack.getLast? = some top →
      ("end" ++ top.tag) ≠ s.words.headD "" →
      (check_indentation fuel selfId res lines ln ind st).out = .fuelOut ∧
      (check_indentation fuel selfId res lines ln ind st).result = res := by
  have hlt : ln < lines.length := by
    rw [List.get?_eq_some] at hs
    exact hs.1
  have hget : lines.get ⟨ln, hlt⟩ = s := by
    rw [List.get?_eq_some] at hs
    exact hs.2
  intro fuel
  induction fuel with
  | zero => intro selfId res ind st top hTop hNe; exact ⟨rfl, rfl⟩
  | succ f ih =>
    intro selfId res ind st top hTop hNe
    rw [check_indentation]
    simp only [dif_pos hlt, hget, create_node, hB, hE, Bool.false_eq_true, if_false, if_true,
      hTop, if_neg hNe]
    exact ih selfId res ind _ top hTop hNe

/-- The extracted form of `c1lines`. -/
theorem c1lines_eq : c1lines =
    [⟨1, ["if", "x"], 1, "\x7b% if x %\x7d"⟩, ⟨1, ["endfor"], 2, "\x7b% endfor %\x7d"⟩] := by
  decide

/-- Claim C1 (the code, evaluated at the failing input): on an `if` block
closed by `endfor` — both lines perfectly indented — `check_indentation`
never reports anything: the END-tag branch matches, the expected name
`endif` differs from `endfor`, no branch of the loop advances `line_no`,
and the run is an infinite loop (fuel exhaustion at every fuel, with the
diagnostics list left empty), not a fatal structural error referencing the
`endfor` line. -/
theorem c1_mismatched_closer_loops_forever : ∀ fuel,
    (runCheck fuel c1lines initState).out = .fuelOut ∧
    (runCheck fuel c1lines initState).result = [] := by
  intro fuel
  cases fuel with
  | zero => exact ⟨rfl, rfl⟩
  | succ f =>
    rw [runCheck, c1lines_eq, check_indentation]
    simp only [initState, create_node]
    simp
    have h := end_mismatch_loop
      [⟨1, ["if", "x"], 1, "\x7b% if x %\x7d"⟩, ⟨1, ["endfor"], 2, "\x7b% endfor %\x7d"⟩]
      1 ⟨1, ["endfor"], 2, "\x7b% endfor %\x7d"⟩ (by decide) (by decide) (by decide)
      f 1 [] INDENT_SHIFT
      ⟨[⟨1, "if", 0, 0, 0, ⟨1, ["if", "x"], 1, "\x7b% if x %\x7d"⟩⟩], 2,
        [⟨1, "if", 0, 0, 0, ⟨1, ["if", "x"], 1, "\x7b% if x %\x7d"⟩⟩]⟩
      ⟨1, "if", 0, 0, 0, ⟨1, ["if", "x"], 1, "\x7b% if x %\x7d"⟩⟩ rfl (by decide)
    rw [if_pos (show ("if" : String) ∈ BEGIN_TAGS from by decide)]
    rw [h.1]
    exact ⟨h.1, h.2⟩

/-- Claim C10: the `raise JinjaLinterError("Tag is out of order ...")` site
is unreachable.  In the matched End-tag branch, when the stack top is not
`self` the function returns the line index without popping; otherwise the
popped node is the stack top, which equals `self`, so the function returns
after checking its indentation — no execution, from any state, fuel or
input, ever produces that error. -/
theorem c10_tag_out_of_order_unreachable :
    ∀ fuel selfId res lines ln ind st t,
      (check_indentation fuel selfId res lines ln ind st).out ≠
        .err (.linterOutOfOrder t) := by
  intro fuel
  induction fuel with
  | zero =>
    intro selfId res lines ln ind st t
    simp [check_indentation]
  | succ f ih =>
    intro selfId res lines ln ind st t
    rw [check_indentation]
    simp only [create_node]
    split
    · split
      · split
        · split
          · exact ih _ _ _ _ _ _ _
          · simp
        · exact ih _ _ _ _ _ _ _
      · split
        · split
          · simp
          · split
            · split
              · simp
              · rw [if_pos (by omega : _)]
                simp
            · exact ih _ _ _ _ _ _ _
        · split
          · split
            · simp
            · split
              · simp
              · split
                · split
                  · simp
                  · split
                    · simp
                    · exact ih _ _ _ _ _ _ _
                · simp
          · split
            · exact ih _ _ _ _ _ _ _
            · simp
    · simp

/-- A nonempty incoming `result` list can never come back empty. -/
theorem result_ne_nil (fuel selfId : Nat) (lines : List JinjaStatement) (ln ind : Nat)
    (st : CheckState) {r : List IndentationError} (hr : r ≠ []) :
    (check_indentation fuel selfId r lines ln ind st).result ≠ [] := by
  rw [result_accumulates]
  simp [hr]

/-- `check_indent_level` never discards recorded diagnostics. -/
theorem check_indent_level_ne_nil {r : List IndentationError} (hr : r ≠ []) (node : Node) :
    check_indent_level r node ≠ [] := by
  rw [check_indent_level_eq r]
  simp [hr]

/-- A node whose observed column differs from
`expected_indent + DEFAULT_WHITESPACES` always contributes a diagnostic. -/
theorem check_indent_level_fires (r : List IndentationError) (node : Node)
    (hne : node.statement.begin ≠ node.expected_indent + DEFAULT_WHITESPACES) :
    check_indent_level r node ≠ [] := by
  rw [check_indent_level]
  simp only [if_pos hne]
  simp

/-! ### Single-iteration unfolding lemmas

One lemma per branch of the `while`-loop body, used to trace symbolic
executions without unfolding the whole interpreter. -/

/-- Reaching the end of the input returns `None`. -/
theorem step_eof (fuel selfId : Nat) (res : List IndentationError)
    (lines : List JinjaStatement) (ln ind : Nat) (st : CheckState)
    (hln : ¬ ln < lines.length) :
    check_indentation (fuel + 1) selfId res lines ln ind st = ⟨res, st, .ret none⟩ := by
  rw [check_indentation]
  simp only [dif_neg hln]

/-- One iteration on a Begin-tag statement: push the new node, record it in
the shared children list, recurse into its frame one level deeper, and hand
the inner value to `begin_cont`. -/
theorem step_begin (lines : List JinjaStatement) (ln : Nat) (s : JinjaStatement)
    (hs : lines.get? ln = some s)
    (hB : BEGIN_TAGS.contains (s.words.headD "") = true) :
    ∀ g selfId res ind st,
      check_indentation (g + 1) selfId res lines ln ind st =
        begin_cont g selfId ⟨st.counter, s.words.headD "", ln, ln, ind, s⟩ lines ind
          (check_indentation g st.counter res lines (ln + 1) (ind + INDENT_SHIFT)
            ⟨st.stack ++ [⟨st.counter, s.words.headD "", ln, ln, ind, s⟩], st.counter + 1,
             st.children ++ [⟨st.counter, s.words.headD "", ln, ln, ind, s⟩]⟩) := by
  have hlt : ln < lines.length := by
    rw [List.get?_eq_some] at hs
    exact hs.1
  have hget : lines.get ⟨ln, hlt⟩ = s := by
    rw [List.get?_eq_some] at hs
    exact hs.2
  intro g selfId res ind st
  rw [check_indentation]
  simp only [dif_pos hlt, hget, create_node, hB, if_true, begin_cont]

/-- One iteration on an Intermediate-tag statement: record the node, check
its indent, advance one line. -/
theorem step_inter (lines : List JinjaStatement) (ln : Nat) (s : JinjaStatement)
    (hs : lines.get? ln = some s)
    (hB : BEGIN_TAGS.contains (s.words.headD "") = false)
    (hE : END_TAGS.contains (s.words.headD "") = false)
    (hM : MIDDLE_TAGS.contains (s.words.headD "") = false)
    (hI : JINJA_INTERMEDIATE_TAG_NAMES.contains (s.words.headD "") = true) :
    ∀ g selfId res ind st,
      check_indentation (g + 1) selfId res lines ln ind st =
        check_indentation g selfId
          (check_indent_level res ⟨st.counter, s.words.headD "", ln, ln, ind, s⟩)
          lines (ln + 1) ind
          ⟨st.stack, st.counter + 1,
           st.children ++ [⟨st.counter, s.words.headD "", ln, ln, ind, s⟩]⟩ := by
  have hlt : ln < lines.length := by
    rw [List.get?_eq_some] at hs
    exact hs.1
  have hget : lines.get ⟨ln, hlt⟩ = s := by
    rw [List.get?_eq_some] at hs
    exact hs.2
  intro g selfId res ind st
  rw [check_indentation]
  simp only [dif_pos hlt, hget, create_node, hB, hE, hM, hI, Bool.false_eq_true, if_false,
    if_true]

/-- One iteration on an End-tag statement whose name matches the stack top
and whose stack top is `self`: pop, close the node at the matched node's
expected indent, check it, and return the next line index. -/
theorem step_end_pop (lines : List JinjaStatement) (ln : Nat) (s : JinjaStatement)
    (hs : lines.get? ln = some s)
    (hB : BEGIN_TAGS.contains (s.words.headD "") = false)
    (hE : END_TAGS.contains (s.words.headD "") = true) :
    ∀ g selfId res ind st stk top,
      st.stack = stk ++ [top] →
      ("end" ++ top.tag) = s.words.headD "" →
      top.id = selfId →
      check_indentation (g + 1) selfId res lines ln ind st =
        ⟨check_indent_level res
            ⟨st.counter, s.words.headD "", ln, ln, top.expected_indent, s⟩,
         ⟨stk, st.counter + 1,
          st.children ++ [⟨st.counter, s.words.headD "", ln, ln, top.expected_indent, s⟩]⟩,
         .ret (some (ln + 1))⟩ := by
  have hlt : ln < lines.length := by
    rw [List.get?_eq_some] at hs
    exact hs.1
  have hget : lines.get ⟨ln, hlt⟩ = s := by
    rw [List.get?_eq_some] at hs
    exact hs.2
  intro g selfId res ind st stk top hstk hname hid
  rw [check_indentation]
  simp only [dif_pos hlt, hget, create_node, hB, hE, Bool.false_eq_true, if_false, if_true,
    hstk, List.getLast?_concat, hname, if_pos, hid, ite_not]
  simp [List.dropLast_concat]

/-- One iteration on an End-tag statement whose name matches the stack top
while the stack top is not `self`: return the line index unconsumed, without
popping. -/
theorem step_end_early (lines : List JinjaStatement) (ln : Nat) (s : JinjaStatement)
    (hs : lines.get? ln = some s)
    (hB : BEGIN_TAGS.contains (s.words.headD "") = false)
    (hE : END_TAGS.contains (s.words.headD "") = true) :
    ∀ g selfId res ind st top,
      st.stack.getLast? = some top →
      ("end" ++ top.tag) = s.words.headD "" →
      top.id ≠ selfId →
      check_indentation (g + 1) selfId res lines ln ind st =
        ⟨res, ⟨st.stack, st.counter + 1, st.children⟩, .ret (some ln)⟩ := by
  have hlt : ln < lines.length := by
    rw [List.get?_eq_some] at hs
    exact hs.1
  have hget : lines.get ⟨ln, hlt⟩ = s := by
    rw [List.get?_eq_some] at hs
    exact hs.2
  intro g selfId res ind st top htop hname hid
  rw [check_indentation]
  simp only [dif_pos hlt, hget, create_node, hB, hE, Bool.false_eq_true, if_false, if_true,
    htop, hname, if_pos, hid, ite_not]

/-- Whatever `begin_cont` does, it cannot empty a nonempty diagnostics
list. -/
theorem begin_cont_result_ne (g selfId : Nat) (node : Node)
    (lines : List JinjaStatement) (ind : Nat) (inner : CheckOut)
    (hi : inner.result ≠ []) :
    (begin_cont g selfId node lines ind inner).result ≠ [] := by
  rw [begin_cont]
  split
  · split
    · exact result_ne_nil _ _ _ _ _ _ (check_indent_level_ne_nil hi _)
    · exact check_indent_level_ne_nil hi _
  · exact hi

/-- The extracted form of `c6lines`. -/
theorem c6lines_eq : c6lines =
    [⟨1, ["if", "x"], 1, "\x7b% if x %\x7d"⟩, ⟨3, ["set", "y"], 2, "  \x7b% set y %\x7d"⟩,
     ⟨1, ["endif"], 3, "\x7b% endif %\x7d"⟩] := by decide

/-- Claim C6, counterexample to configurability: `c6lines` is a correctly
nested file consistently indented with width 2.  If the caller of
`check_indentation` could configure `indent_width` (or the whitespace
offset), some call would accept it; but for every value of the only numeric
knob the method exposes (its `indent_level` argument, here at the standard
entry point `line_no = 0`), the checker still reports at least one
indentation error: the body line at column 3 is always compared against
`indent_level + INDENT_SHIFT + DEFAULT_WHITESPACES ≥ 5`, with the constants
`INDENT_SHIFT = 4` and `DEFAULT_WHITESPACES = 1` baked into the module. -/
theorem c6_counterexample_width_not_configurable :
    ¬ ∃ ind : Nat, (check_indentation 10 0 [] c6lines 0 ind ⟨[], 1, []⟩).result = [] := by
  rintro ⟨ind, h⟩
  rw [c6lines_eq, show (10 : Nat) = 9 + 1 from rfl,
    step_begin _ 0 ⟨1, ["if", "x"], 1, "\x7b% if x %\x7d"⟩ (by decide) (by decide),
    show (9 : Nat) = 8 + 1 from rfl,
    step_inter _ 1 ⟨3, ["set", "y"], 2, "  \x7b% set y %\x7d"⟩ (by decide) (by decide)
      (by decide) (by decide) (by decide)] at h
  exact begin_cont_result_ne _ _ _ _ _ _
    (result_ne_nil _ _ _ _ _ _
      (check_indent_level_fires _ _
        (by simp only [INDENT_SHIFT, DEFAULT_WHITESPACES]; omega)))
    h

/-- Claim C6 as amended: the two numeric values are the module constants
`INDENT_SHIFT = 4` and `DEFAULT_WHITESPACES = 1` (not configurable by the
caller — see the counterexample); an `IndentationError` is recorded for a
checked statement if and only if its observed column differs from
`expected_indent + DEFAULT_WHITESPACES`; and such a mismatch is recoverable:
the `result` list is pure accumulation, so recorded errors never influence
any branch, raise, or returned index of the pass. -/
theorem c6_amended_fixed_width_mismatch_iff_recoverable :
    (INDENT_SHIFT = 4 ∧ DEFAULT_WHITESPACES = 1) ∧
    (∀ res node, check_indent_level res node =
      if node.statement.begin = node.expected_indent + DEFAULT_WHITESPACES then res
      else res ++ [create_indentation_error node
        ("Bad Indentation, expected " ++ toString (node.expected_indent + DEFAULT_WHITESPACES)
          ++ ", got " ++ toString node.statement.begin)]) ∧
    (∀ fuel selfId res lines ln ind st,
      check_indentation fuel selfId res lines ln ind st =
        ⟨res ++ (check_indentation fuel selfId [] lines ln ind st).result,
         (check_indentation fuel selfId [] lines ln ind st).st,
         (check_indentation fuel selfId [] lines ln ind st).out⟩) := by
  refine ⟨⟨rfl, rfl⟩, ?_, result_accumulates⟩
  intro res node
  rw [check_indent_level]
  by_cases hc : node.statement.begin = node.expected_indent + DEFAULT_WHITESPACES
  · simp [hc]
  · simp [hc]

/-- Every item renders to at least one statement. -/
theorem lenI_pos : ∀ i : TItem, 1 ≤ lenI i
  | .inter _ _ => by rw [lenI]
  | .blk _ _ _ _ => by rw [lenI]; omega

/-- A rendered forest has exactly `lenF` statements. -/
theorem renderF_length : ∀ N F ln, lenF F ≤ N → (renderF ln F).length = lenF F := by
  intro N
  induction N with
  | zero =>
    intro F ln hF
    cases F with
    | nil => rw [renderF, lenF]; rfl
    | cons i rest =>
      exfalso
      rw [lenF] at hF
      have := lenI_pos i
      omega
  | succ n ih =>
    intro F ln hF
    cases F with
    | nil => rw [renderF, lenF]; rfl
    | cons i rest =>
      rw [renderF, lenF, List.length_append]
      rw [lenF] at hF
      have hpos := lenI_pos i
      have hrest := ih rest (ln + lenI i) (by omega)
      rw [hrest]
      cases i with
      | inter tag col => rw [renderI, lenI]; rfl
      | blk fam bcol body ecol =>
        have hbody := ih body (ln + 1) (by rw [lenI] at hF; omega)
        rw [renderI, lenI]
        simp only [List.length_cons, List.length_append, List.length_nil, hbody]
        omega

/-- Indexing just past a prefix lands on the following element. -/
theorem get?_append_cons {α : Type} (pre : List α) (a : α) (post : List α) :
    (pre ++ a :: post).get? pre.length = some a := by
  rw [List.get?_append_right (Nat.le_refl _)]
  simp

/-- `check_indent_level` on an explicitly given node, with its contribution
written out. -/
theorem cil_stmt (res : List IndentationError) (c : Nat) (t : String) (n1 n2 dlev col : Nat)
    (ws : List String) (ln : Nat) (txt : String) :
    check_indent_level res ⟨c, t, n1, n2, dlev, ⟨col, ws, ln, txt⟩⟩ =
      res ++ (if col = dlev + DEFAULT_WHITESPACES then []
        else [(ln, delimit_jinja_statement txt,
          "Bad Indentation, expected " ++ toString (dlev + DEFAULT_WHITESPACES) ++
            ", got " ++ toString col)]) := by
  rw [check_indent_level]
  by_cases hc : col = dlev + DEFAULT_WHITESPACES
  · simp [hc]
  · simp [hc, create_indentation_error]

/-- An intermediate tag is classified by no other branch. -/
theorem inter_tag_facts (tag : String)
    (h : JINJA_INTERMEDIATE_TAG_NAMES.contains tag = true) :
    BEGIN_TAGS.contains tag = false ∧ END_TAGS.contains tag = false ∧
      MIDDLE_TAGS.contains tag = false := by
  simp only [JINJA_INTERMEDIATE_TAG_NAMES, List.contains_eq_any_beq, List.any_cons,
    List.any_nil, Bool.or_false, Bool.or_eq_true, beq_iff_eq] at h
  rcases h with rfl | rfl
  · exact ⟨by decide, by decide, by decide⟩
  · exact ⟨by decide, by decide, by decide⟩

/-- For each family of the tag table: its head is a Begin tag, its last
element is an End tag and not a Begin tag, and the expected end-tag name of
the head is exactly that last element. -/
theorem family_facts (fam : List String)
    (h : JINJA_STATEMENT_TAG_NAMES.contains fam = true) :
    BEGIN_TAGS.contains (fam.headD "") = true ∧
      BEGIN_TAGS.contains (fam.getLastD "") = false ∧
      END_TAGS.contains (fam.getLastD "") = true ∧
      ("end" ++ fam.headD "") = fam.getLastD "" := by
  simp only [JINJA_STATEMENT_TAG_NAMES, List.contains_eq_any_beq, List.any_cons,
    List.any_nil, Bool.or_false, Bool.or_eq_true, beq_iff_eq] at h
  rcases h with rfl | rfl | rfl
  · exact ⟨by decide, by decide, by decide, by decide⟩
  · exact ⟨by decide, by decide, by decide, by decide⟩
  · exact ⟨by decide, by decide, by decide, by decide⟩

/-- `check_indent_level` on an intermediate statement's node yields exactly
the `errsI` contribution. -/
theorem cil_inter (res : List IndentationError) (c : Nat) (t : String) (n1 n2 dlev : Nat)
    (tag : String) (col ln : Nat) :
    check_indent_level res ⟨c, t, n1, n2, dlev, ⟨col, [tag], ln, tag⟩⟩ =
      res ++ errsI dlev ln (.inter tag col) := by
  rw [errsI]
  exact cil_stmt res c t n1 n2 dlev col [tag] ln tag

/-- The master correspondence: a frame of `check_indentation` scanning a
rendered well-nested middle-free forest `F` placed after `pre` consumes all
its statements, appends exactly `errsF` to the diagnostics (in check order:
body first, then closing tag, then opening tag), pops everything it pushes,
uses one unit of frame fuel per top-level item, and continues at the first
index past the forest with the stack unchanged. -/
theorem render_master : ∀ N F, lenF F ≤ N → validF F = true →
    ∀ fuel dlev ln selfId res lines pre post st,
      lines = pre ++ renderF ln F ++ post →
      costF F ≤ fuel →
      ∃ c2 kids,
        check_indentation fuel selfId res lines pre.length dlev st =
          check_indentation (fuel - itemsF F) selfId (res ++ errsF dlev ln F) lines
            (pre.length + lenF F) dlev ⟨st.stack, c2, st.children ++ kids⟩ := by
  intro N
  induction N with
  | zero =>
    intro F hF hv fuel dlev ln selfId res lines pre post st hlines hcost
    cases F with
    | nil =>
      refine ⟨st.counter, [], ?_⟩
      rw [itemsF, lenF, errsF]
      simp
    | cons i rest =>
      exfalso
      have := lenI_pos i
      rw [lenF] at hF
      omega
  | succ N ih =>
    intro F hF hv fuel dlev ln selfId res lines pre post st hlines hcost
    cases F with
    | nil =>
      refine ⟨st.counter, [], ?_⟩
      rw [itemsF, lenF, errsF]
      simp
    | cons i rest =>
      rw [costF] at hcost
      obtain ⟨g, rfl⟩ : ∃ g, fuel = g + 1 := ⟨fuel - 1, by omega⟩
      have hgi : costI i ≤ g := by omega
      have hgrest : costF rest ≤ g := by omega
      rw [validF, Bool.and_eq_true] at hv
      obtain ⟨hvi, hvrest⟩ := hv
      rw [lenF] at hF
      cases i with
      | inter tag col =>
        rw [validI] at hvi
        obtain ⟨hB, hE, hM⟩ := inter_tag_facts tag hvi
        have hlines' : lines =
            pre ++ ⟨col, [tag], ln, tag⟩ :: (renderF (ln + lenI (TItem.inter tag col)) rest ++ post) := by
          rw [hlines, renderF, renderI]
          simp
        have hget : lines.get? pre.length = some ⟨col, [tag], ln, tag⟩ := by
          rw [hlines']
          exact get?_append_cons _ _ _
        rw [step_inter lines pre.length _ hget (by simpa using hB) (by simpa using hE)
          (by simpa using hM) (by simpa using hvi) g selfId res dlev st]
        rw [cil_inter]
        have hlines'' : lines =
            (pre ++ [⟨col, [tag], ln, tag⟩]) ++ renderF (ln + lenI (TItem.inter tag col)) rest ++ post := by
          rw [hlines']
          simp
        obtain ⟨c2, kids, heq⟩ := ih rest (by have := lenI_pos (TItem.inter tag col); omega)
          hvrest g dlev (ln + lenI (TItem.inter tag col)) selfId
          (res ++ errsI dlev ln (TItem.inter tag col)) lines (pre ++ [⟨col, [tag], ln, tag⟩]) post
          ⟨st.stack, st.counter + 1,
            st.children ++ [⟨st.counter, (([tag] : List String).headD ""), pre.length, pre.length, dlev,
              ⟨col, [tag], ln, tag⟩⟩]⟩
          hlines'' hgrest
        simp only [List.length_append, List.length_singleton] at heq
        rw [heq]
        refine ⟨c2, ⟨st.counter, (([tag] : List String).headD ""), pre.length, pre.length, dlev,
          ⟨col, [tag], ln, tag⟩⟩ :: kids, ?_⟩
        rw [show (g + 1) - itemsF (TForest.cons (TItem.inter tag col) rest) = g - itemsF rest
            from by rw [itemsF]; omega,
          show errsF dlev ln (TForest.cons (TItem.inter tag col) rest) =
            errsI dlev ln (TItem.inter tag col) ++ errsF dlev (ln + lenI (TItem.inter tag col)) rest
            from by rw [errsF],
          show pre.length + lenF (TForest.cons (TItem.inter tag col) rest) =
            pre.length + 1 + lenF rest from by rw [lenF, lenI]; omega]
        simp [List.append_assoc]
      | blk fam bcol body ecol =>
        rw [validI, Bool.and_eq_true] at hvi
        obtain ⟨hvfam, hvbody⟩ := hvi
        obtain ⟨hBh, hBl, hEl, hname⟩ := family_facts fam hvfam
        rw [costI] at hgi
        rw [lenI] at hF
        have hlenR : (renderF (ln + 1) body).length = lenF body :=
          renderF_length (lenF body) body (ln + 1) (Nat.le_refl _)
        have hlines1 : lines = pre ++ ⟨bcol, [fam.headD ""], ln, fam.headD ""⟩ ::
            (renderF (ln + 1) body ++
              ⟨ecol, [fam.getLastD ""], ln + 1 + lenF body, fam.getLastD ""⟩ ::
                (renderF (ln + lenI (TItem.blk fam bcol body ecol)) rest ++ post)) := by
          rw [hlines, renderF, renderI]
          simp [List.append_assoc]
        have hgetB : lines.get? pre.length = some ⟨bcol, [fam.headD ""], ln, fam.headD ""⟩ := by
          rw [hlines1]
          exact get?_append_cons _ _ _
        have hlines2 : lines =
            (pre ++ ⟨bcol, [fam.headD ""], ln, fam.headD ""⟩ :: renderF (ln + 1) body) ++
              ⟨ecol, [fam.getLastD ""], ln + 1 + lenF body, fam.getLastD ""⟩ ::
                (renderF (ln + lenI (TItem.blk fam bcol body ecol)) rest ++ post) := by
          rw [hlines1]
          simp
        have hgetE : lines.get? (pre.length + 1 + lenF body) =
            some ⟨ecol, [fam.getLastD ""], ln + 1 + lenF body, fam.getLastD ""⟩ := by
          rw [hlines2,
            show pre.length + 1 + lenF body =
              (pre ++ ⟨bcol, [fam.headD ""], ln, fam.headD ""⟩ :: renderF (ln + 1) body).length
              from by simp [hlenR]; omega]
          exact get?_append_cons _ _ _
        rw [step_begin lines pre.length _ hgetB (by simpa using hBh) g selfId res dlev st]
        have hlinesB : lines = (pre ++ [⟨bcol, [fam.headD ""], ln, fam.headD ""⟩]) ++
            renderF (ln + 1) body ++
            (⟨ecol, [fam.getLastD ""], ln + 1 + lenF body, fam.getLastD ""⟩ ::
              (renderF (ln + lenI (TItem.blk fam bcol body ecol)) rest ++ post)) := by
          rw [hlines1]
          simp
        obtain ⟨cB, kidsB, heqB⟩ := ih body (by omega) hvbody g (dlev + INDENT_SHIFT) (ln + 1)
          st.counter res lines (pre ++ [⟨bcol, [fam.headD ""], ln, fam.headD ""⟩])
          (⟨ecol, [fam.getLastD ""], ln + 1 + lenF body, fam.getLastD ""⟩ ::
            (renderF (ln + lenI (TItem.blk fam bcol body ecol)) rest ++ post))
          ⟨st.stack ++ [⟨st.counter, (([fam.headD ""] : List String).headD ""), pre.length,
              pre.length, dlev, ⟨bcol, [fam.headD ""], ln, fam.headD ""⟩⟩], st.counter + 1,
            st.children ++ [⟨st.counter, (([fam.headD ""] : List String).headD ""), pre.length,
              pre.length, dlev, ⟨bcol, [fam.headD ""], ln, fam.headD ""⟩⟩]⟩
          hlinesB (by omega)
        simp only [List.length_append, List.length_singleton] at heqB
        rw [heqB]
        obtain ⟨h2, hh2⟩ : ∃ h2, g - itemsF body = h2 + 1 := ⟨g - itemsF body - 1, by omega⟩
        rw [hh2]
        rw [step_end_pop lines (pre.length + 1 + lenF body) _ hgetE (by simpa using hBl)
          (by simpa using hEl) h2 st.counter
          (res ++ errsF (dlev + INDENT_SHIFT) (ln + 1) body) (dlev + INDENT_SHIFT) _
          st.stack
          ⟨st.counter, (([fam.headD ""] : List String).headD ""), pre.length,
            pre.length, dlev, ⟨bcol, [fam.headD ""], ln, fam.headD ""⟩⟩
          rfl (by simpa using hname) rfl]
        rw [begin_cont]
        dsimp only
        rw [cil_stmt, cil_stmt]
        have hlenI : (renderI ln (TItem.blk fam bcol body ecol)).length = 2 + lenF body := by
          rw [renderI]
          simp only [List.length_cons, List.length_append, List.length_singleton, List.length_nil, hlenR]
          omega
        have hlinesR : lines = (pre ++ renderI ln (TItem.blk fam bcol body ecol)) ++
            renderF (ln + lenI (TItem.blk fam bcol body ecol)) rest ++ post := by
          rw [hlines, renderF]
          simp [List.append_assoc]
        obtain ⟨cR, kidsR, heqR⟩ := ih rest
          (by have := lenI_pos (TItem.blk fam bcol body ecol); omega) hvrest g dlev
          (ln + lenI (TItem.blk fam bcol body ecol)) selfId
          ((res ++ errsF (dlev + INDENT_SHIFT) (ln + 1) body ++
              (if ecol = dlev + DEFAULT_WHITESPACES then []
               else [(ln + 1 + lenF body, delimit_jinja_statement (fam.getLastD ""),
                 "Bad Indentation, expected " ++ toString (dlev + DEFAULT_WHITESPACES) ++
                   ", got " ++ toString ecol)])) ++
            (if bcol = dlev + DEFAULT_WHITESPACES then []
             else [(ln, delimit_jinja_statement (fam.headD ""),
               "Bad Indentation, expected " ++ toString (dlev + DEFAULT_WHITESPACES) ++
                 ", got " ++ toString bcol)]))
          lines (pre ++ renderI ln (TItem.blk fam bcol body ecol)) post
          ⟨st.stack, cB + 1,
            st.children ++
                [⟨st.counter, (([fam.headD ""] : List String).headD ""), pre.length,
                  pre.length, dlev, ⟨bcol, [fam.headD ""], ln, fam.headD ""⟩⟩] ++
              kidsB ++
              [⟨cB, (([fam.getLastD ""] : List String).headD ""), pre.length + 1 + lenF body,
                pre.length + 1 + lenF body, dlev,
                ⟨ecol, [fam.getLastD ""], ln + 1 + lenF body, fam.getLastD ""⟩⟩]⟩
          hlinesR hgrest
        simp only [List.length_append, hlenI] at heqR
        rw [show pre.length + 1 + lenF body + 1 = pre.length + (2 + lenF body) from by omega]
        rw [heqR]
        refine ⟨cR,
          ⟨st.counter, (([fam.headD ""] : List String).headD ""), pre.length,
            pre.length, dlev, ⟨bcol, [fam.headD ""], ln, fam.headD ""⟩⟩ ::
            (kidsB ++
              ⟨cB, (([fam.getLastD ""] : List String).headD ""), pre.length + 1 + lenF body,
                pre.length + 1 + lenF body, dlev,
                ⟨ecol, [fam.getLastD ""], ln + 1 + lenF body, fam.getLastD ""⟩⟩ :: kidsR), ?_⟩
        rw [show (g + 1) - itemsF (TForest.cons (TItem.blk fam bcol body ecol) rest) =
            g - itemsF rest from by rw [itemsF]; omega,
          show errsF dlev ln (TForest.cons (TItem.blk fam bcol body ecol) rest) =
            errsI dlev ln (TItem.blk fam bcol body ecol) ++
              errsF dlev (ln + lenI (TItem.blk fam bcol body ecol)) rest from by rw [errsF],
          show pre.length + lenF (TForest.cons (TItem.blk fam bcol body ecol) rest) =
            pre.length + (2 + lenF body) + lenF rest from by rw [lenF, lenI]; omega,
          errsI]
        simp [List.append_assoc]

/-- A fully correctly indented forest contributes no diagnostics. -/
theorem errsF_correct : ∀ N F, lenF F ≤ N →
    ∀ dlev ln, correctF dlev F = true → errsF dlev ln F = [] := by
  intro N
  induction N with
  | zero =>
    intro F hF dlev ln hc
    cases F with
    | nil => rw [errsF]
    | cons i rest => exfalso; have := lenI_pos i; rw [lenF] at hF; omega
  | succ n ih =>
    intro F hF dlev ln hc
    cases F with
    | nil => rw [errsF]
    | cons i rest =>
      rw [lenF] at hF
      rw [correctF, Bool.and_eq_true] at hc
      obtain ⟨hci, hcrest⟩ := hc
      rw [errsF]
      have hpos := lenI_pos i
      rw [ih rest (by omega) dlev (ln + lenI i) hcrest, List.append_nil]
      cases i with
      | inter tag col =>
        rw [correctI, decide_eq_true_eq] at hci
        rw [errsI, if_pos hci]
      | blk fam bcol body ecol =>
        rw [correctI, Bool.and_eq_true, Bool.and_eq_true] at hci
        obtain ⟨⟨hb, he⟩, hbody⟩ := hci
        rw [decide_eq_true_eq] at hb he
        rw [errsI, if_pos hb, if_pos he,
          ih body (by rw [lenI] at hF; omega) (dlev + INDENT_SHIFT) (ln + 1) hbody]
        simp

/-- The diagnostics' source lines are exactly the mis-indented statements'
lines, in check order. -/
theorem errsF_map_fst : ∀ N F, lenF F ≤ N →
    ∀ dlev ln, (errsF dlev ln F).map Prod.fst = flawsF dlev ln F := by
  intro N
  induction N with
  | zero =>
    intro F hF dlev ln
    cases F with
    | nil => rw [errsF, flawsF]; rfl
    | cons i rest => exfalso; have := lenI_pos i; rw [lenF] at hF; omega
  | succ n ih =>
    intro F hF dlev ln
    cases F with
    | nil => rw [errsF, flawsF]; rfl
    | cons i rest =>
      rw [lenF] at hF
      have hpos := lenI_pos i
      rw [errsF, flawsF, List.map_append, ih rest (by omega) dlev (ln + lenI i)]
      congr 1
      cases i with
      | inter tag col =>
        rw [errsI, flawsI]
        by_cases hc : col = dlev + DEFAULT_WHITESPACES
        · rw [if_pos hc, if_pos hc]; rfl
        · rw [if_neg hc, if_neg hc]; rfl
      | blk fam bcol body ecol =>
        rw [errsI, flawsI, List.map_append, List.map_append,
          ih body (by rw [lenI] at hF; omega) (dlev + INDENT_SHIFT) (ln + 1)]
        congr 1
        congr 1
        · by_cases hc : ecol = dlev + DEFAULT_WHITESPACES
          · rw [if_pos hc, if_pos hc]; rfl
          · rw [if_neg hc, if_neg hc]; rfl
        · by_cases hc : bcol = dlev + DEFAULT_WHITESPACES
          · rw [if_pos hc, if_pos hc]; rfl
          · rw [if_neg hc, if_neg hc]; rfl

/-- A full checker invocation on a rendered well-nested middle-free input:
it terminates normally (the loop falls off the end of the input, returning
`None`) and reports exactly `errsF`. -/
theorem runCheck_render (F : TForest) (fuel : Nat) (hv : validF F = true)
    (hfuel : costF F + itemsF F + 1 ≤ fuel) :
    (runCheck fuel (renderF 1 F) initState).result = errsF 0 1 F ∧
    (runCheck fuel (renderF 1 F) initState).out = .ret none := by
  obtain ⟨c2, kids, heq⟩ := render_master (lenF F) F (Nat.le_refl _) hv fuel 0 1 0 []
    (renderF 1 F) [] [] ⟨[], 1, []⟩ (by simp) (by omega)
  simp only [List.length_nil, List.nil_append] at heq
  rw [runCheck, initState]
  rw [heq]
  obtain ⟨k, hk⟩ : ∃ k, fuel - itemsF F = k + 1 := ⟨fuel - itemsF F - 1, by omega⟩
  rw [hk, step_eof]
  · exact ⟨rfl, rfl⟩
  · rw [renderF_length (lenF F) F 1 (Nat.le_refl _)]
    omega

/-- Claim C4: a well-indented, correctly nested input produces zero
diagnostics and no fatal error.  First conjunct: for every well-nested
middle-free input (every forest of compound blocks and intermediate
statements, rendered with every statement at its expected column),
`check_indentation` reports nothing and returns normally.  Second conjunct:
the same holds on a concrete well-indented input containing a middle tag
(`if`/`else`/`endif` with one body statement per arm; the run returns
normally — at index 2, due to the else-block early return — with zero
diagnostics). -/
theorem c4_balanced_wellindented_zero_diagnostics :
    (∀ F fuel, validF F = true → correctF 0 F = true → costF F + itemsF F + 1 ≤ fuel →
      (runCheck fuel (renderF 1 F) initState).result = [] ∧
      (runCheck fuel (renderF 1 F) initState).out = .ret none) ∧
    ((runCheck 20 c4elselines initState).result = [] ∧
      (runCheck 20 c4elselines initState).out = .ret (some 4)) := by
  constructor
  · intro F fuel hv hc hfuel
    have h := runCheck_render F fuel hv hfuel
    rw [errsF_correct (lenF F) F (Nat.le_refl _) 0 1 hc] at h
    exact h
  · exact ⟨by decide, by decide⟩

/-- Witness for C4 at the concrete forest `sampleForest` and fuel 30. -/
theorem c4_witness :
    validF sampleForest = true ∧ correctF 0 sampleForest = true ∧
    costF sampleForest + itemsF sampleForest + 1 ≤ 30 ∧
    (runCheck 30 (renderF 1 sampleForest) initState).result = [] ∧
    (runCheck 30 (renderF 1 sampleForest) initState).out = .ret none :=
  ⟨by decide, by decide, by decide,
   (c4_balanced_wellindented_zero_diagnostics.1 sampleForest 30 (by decide) (by decide)
     (by decide)).1,
   (c4_balanced_wellindented_zero_diagnostics.1 sampleForest 30 (by decide) (by decide)
     (by decide)).2⟩

/-- Claim C5 as amended: diagnostics are emitted in check-completion order,
`errsF` — sibling statements in document order, an end tag at consumption,
but a compound block's opening statement only after its whole body and its
closing tag (see the definition of `errsI`); they are not in general sorted
by source line. -/
theorem c5_amended_diagnostics_in_check_order :
    ∀ F fuel, validF F = true → costF F + itemsF F + 1 ≤ fuel →
      (runCheck fuel (renderF 1 F) initState).result = errsF 0 1 F :=
  fun F fuel hv hfuel => (runCheck_render F fuel hv hfuel).1

/-- Witness for the amended C5 at `c5forest`: the reported lines are
`[2, 1]` — the body line first, the opening line last. -/
theorem c5_amended_witness :
    validF c5forest = true ∧ costF c5forest + itemsF c5forest + 1 ≤ 20 ∧
    (runCheck 20 (renderF 1 c5forest) initState).result = errsF 0 1 c5forest ∧
    (errsF 0 1 c5forest).map Prod.fst = [2, 1] :=
  ⟨by decide, by decide,
   c5_amended_diagnostics_in_check_order c5forest 20 (by decide) (by decide), by decide⟩

/-- Claim C8 as amended: for every well-nested middle-free input that is
correctly indented except for a single mis-indented statement (in
particular, one shifted by one column), the checker reports exactly one
`IndentationError`, and it references that statement's source line.  (With
middle tags the claim fails: see the counterexample.) -/
theorem c8_amended_single_flaw_single_error :
    ∀ F fuel l, validF F = true → costF F + itemsF F + 1 ≤ fuel →
      flawsF 0 1 F = [l] →
      ∃ s m, (runCheck fuel (renderF 1 F) initState).result = [(l, s, m)] := by
  intro F fuel l hv hfuel hfl
  have h := (runCheck_render F fuel hv hfuel).1
  have hm := errsF_map_fst (lenF F) F (Nat.le_refl _) 0 1
  rw [hfl] at hm
  rcases herr : errsF 0 1 F with _ | ⟨⟨x1, x2, x3⟩, tail⟩
  · rw [herr] at hm
    simp at hm
  · rw [herr] at hm h
    rcases tail with _ | ⟨y, t2⟩
    · simp at hm
      exact ⟨x2, x3, by rw [h, hm]⟩
    · simp at hm

/-- Witness for the amended C8 at `sampleFlawed` (its only flaw: the inner
`set` on source line 3, shifted one column right of its expected column 9):
exactly one diagnostic, for line 3. -/
theorem c8_amended_witness :
    validF sampleFlawed = true ∧ costF sampleFlawed + itemsF sampleFlawed + 1 ≤ 40 ∧
    flawsF 0 1 sampleFlawed = [3] ∧
    ∃ s m, (runCheck 40 (renderF 1 sampleFlawed) initState).result = [(3, s, m)] :=
  ⟨by decide, by decide, by decide,
   c8_amended_single_flaw_single_error sampleFlawed 40 3 (by decide) (by decide) (by decide)⟩

/-!
## Claim C2: the checker run twice over the shared mutable state

The module-level `jinja_node_stack` and the class-level `Node.children`
list survive a call, so a second invocation starts from whatever the first
one left behind.  The bisimulation below shows the dirt cannot change what
the second run produces: the leftover stack entries all carry identities
older than every node the new run allocates, so the one place the code
consults the stack (its top) either sees the new run's own nodes, or — when
the new run's frame stack is empty — an old node whose identity can never
equal the current frame's `self`, which makes the code return early exactly
where the clean run dies of its empty-stack `IndexError`.  The only
asymmetric outcome would need the clean run to raise `IndexError` while
leftovers exist, and a run that raises `IndexError` leaves an empty stack,
so the dirt required for the asymmetry cannot have been produced.
-/

/-- Mapping a function over a list maps it over the optional last element. -/
theorem map_getLast? {α β : Type} (f : α → β) (l : List α) :
    (l.map f).getLast? = (l.getLast?).map f := by
  induction l using List.reverseRecOn with
  | nil => rfl
  | append_singleton xs x ih => simp

/-- Mapping a function over a list commutes with dropping the last element. -/
theorem map_dropLast {α β : Type} (f : α → β) (l : List α) :
    (l.map f).dropLast = l.dropLast.map f := by
  induction l using List.reverseRecOn with
  | nil => rfl
  | append_singleton xs x ih => simp

/-- The optional last element of a list is an element of it. -/
theorem getLast?_mem {α : Type} (l : List α) (a : α) (h : l.getLast? = some a) : a ∈ l := by
  induction l using List.reverseRecOn with
  | nil => simp at h
  | append_singleton xs x ih =>
    simp only [List.getLast?_concat, Option.some.injEq] at h
    subst h; simp

/-- Allocation-counter invariant: when every node on the entry stack has an
identity below the entry counter, the same holds on exit, and the counter
never decreases (the source only ever allocates fresh objects and pushes
already-allocated ones). -/
theorem counter_invariant :
    ∀ fuel selfId res lines ln ind st,
      (∀ x ∈ st.stack, x.id < st.counter) →
      (∀ x ∈ (check_indentation fuel selfId res lines ln ind st).st.stack,
          x.id < (check_indentation fuel selfId res lines ln ind st).st.counter) ∧
      st.counter ≤ (check_indentation fuel selfId res lines ln ind st).st.counter := by
  intro fuel
  induction fuel with
  | zero =>
    intro selfId res lines ln ind st hst
    rw [check_indentation]
    exact ⟨hst, Nat.le_refl _⟩
  | succ f ih =>
    intro selfId res lines ln ind st hst
    rw [check_indentation]
    simp only [create_node]
    split
    · rename_i hlt
      split
      · -- BEGIN
        have hst2 : ∀ x ∈ st.stack ++ [(⟨st.counter, ((lines.get ⟨ln, hlt⟩).words.headD ""),
              ln, ln, ind, lines.get ⟨ln, hlt⟩⟩ : Node)], x.id < st.counter + 1 := by
          intro x hx
          simp only [List.mem_append, List.mem_singleton] at hx
          rcases hx with hx | rfl
          · exact Nat.lt_succ_of_lt (hst x hx)
          · exact Nat.lt_succ_self _
        obtain ⟨hInner, hcInner⟩ := ih _ res lines (ln + 1) (ind + INDENT_SHIFT)
          ⟨st.stack ++ [⟨st.counter, ((lines.get ⟨ln, hlt⟩).words.headD ""),
            ln, ln, ind, lines.get ⟨ln, hlt⟩⟩], st.counter + 1,
            st.children ++ [⟨st.counter, ((lines.get ⟨ln, hlt⟩).words.headD ""),
              ln, ln, ind, lines.get ⟨ln, hlt⟩⟩]⟩ hst2
        dsimp only at hcInner
        split
        · split
          · obtain ⟨hCont, hcCont⟩ := ih _ _ lines _ ind _ hInner
            exact ⟨hCont, by omega⟩
          · exact ⟨hInner, by dsimp only; omega⟩
        · exact ⟨hInner, by omega⟩
      · split
        · -- END
          split
          · exact ⟨fun x hx => Nat.lt_succ_of_lt (hst x hx), by dsimp only; omega⟩
          · split
            · split
              · exact ⟨fun x hx => Nat.lt_succ_of_lt (hst x hx), by dsimp only; omega⟩
              · split
                · exact ⟨fun x hx =>
                    Nat.lt_succ_of_lt (hst x (List.dropLast_subset _ hx)), by dsimp only; omega⟩
                · exact ⟨fun x hx =>
                    Nat.lt_succ_of_lt (hst x (List.dropLast_subset _ hx)), by omega⟩
            · -- name mismatch: loop
              obtain ⟨h1, h2⟩ := ih selfId res lines ln ind
                ⟨st.stack, st.counter + 1, st.children⟩
                (fun x hx => Nat.lt_succ_of_lt (hst x hx))
              refine ⟨h1, ?_⟩
              dsimp only at h2
              omega
        · split
          · -- MIDDLE
            split
            · exact ⟨fun x hx => Nat.lt_succ_of_lt (hst x hx), by dsimp only; omega⟩
            · split
              · exact ⟨fun x hx => Nat.lt_succ_of_lt (hst x hx), by dsimp only; omega⟩
              · split
                · split
                  · exact ⟨fun x hx => Nat.lt_succ_of_lt (hst x hx), by dsimp only; omega⟩
                  · obtain ⟨hInner, hcInner⟩ := ih _ res lines (ln + 1) _
                      ⟨st.stack, st.counter + 1,
                        st.children ++ [_]⟩
                      (fun x hx => Nat.lt_succ_of_lt (hst x hx))
                    dsimp only at hcInner
                    split
                    · exact ⟨hInner, by dsimp only; omega⟩
                    · exact ⟨hInner, by omega⟩
                · exact ⟨fun x hx => Nat.lt_succ_of_lt (hst x hx), by dsimp only; omega⟩
          · split
            · -- INTERMEDIATE
              obtain ⟨hCont, hcCont⟩ := ih selfId _ lines (ln + 1) ind
                ⟨st.stack, st.counter + 1, st.children ++ [_]⟩
                (fun x hx => Nat.lt_succ_of_lt (hst x hx))
              dsimp only at hcCont
              exact ⟨hCont, by omega⟩
            · exact ⟨fun x hx => Nat.lt_succ_of_lt (hst x hx), by dsimp only; omega⟩
    · exact ⟨hst, Nat.le_refl _⟩

/-- A run that dies of the empty-stack `IndexError` leaves the shared stack
empty: the only raise sites for it are the two `jinja_node_stack[-1]`
evaluations, both guarded by the stack being empty at that moment, and the
stack is passed through unchanged to that point. -/
theorem indexError_empty_stack :
    ∀ fuel selfId res lines ln ind st,
      (check_indentation fuel selfId res lines ln ind st).out = .err .indexError →
      (check_indentation fuel selfId res lines ln ind st).st.stack = [] := by
  intro fuel
  induction fuel with
  | zero =>
    intro selfId res lines ln ind st h
    rw [check_indentation] at h ⊢
    exact absurd h (by simp)
  | succ f ih =>
    intro selfId res lines ln ind st
    rw [check_indentation]
    simp only [create_node]
    split
    · split
      · -- BEGIN
        split
        · split
          · exact ih _ _ _ _ _ _
          · intro h
            exact absurd h (by simp)
        · exact ih _ _ _ _ _ _
      · split
        · -- END
          split
          · rename_i hnone
            intro _
            dsimp only
            simpa using hnone
          · split
            · split
              · intro h
                exact absurd h (by simp)
              · split
                · intro h
                  exact absurd h (by simp)
                · intro h
                  exact absurd h (by simp)
            · exact ih _ _ _ _ _ _
        · split
          · -- MIDDLE
            split
            · rename_i hnone
              intro _
              dsimp only
              simpa using hnone
            · split
              · intro h
                exact absurd h (by simp)
              · split
                · split
                  · intro h
                    exact absurd h (by simp)
                  · split
                    · intro h
                      exact absurd h (by simp)
                    · exact ih _ _ _ _ _ _
                · intro h
                  exact absurd h (by simp)
          · split
            · exact ih _ _ _ _ _ _
            · intro h
              exact absurd h (by simp)
    · intro h
      exact absurd h (by simp)

/-- Bisimulation between a run from a clean state and the same run from a
state carrying leftovers `L` below the mapped clean stack and an allocation
counter shifted by `d`.  Provided every leftover identity is below `d`, the
dirty run produces the same diagnostics, and either runs in lockstep (same
outcome, stacks related by the same `L` and shift, counters still `d`
apart) or the clean run dies of the empty-stack `IndexError` while
leftovers exist.  The final clause of the lockstep case (a frame never pops
more than one entry below its entry stack) rules the divergence out for
inner frames, whose entry stacks are never empty. -/
theorem master_bisim :
    ∀ fuel selfId res lines ln ind st1 L d st2,
      st2.stack = L ++ st1.stack.map (shiftNode d) →
      st2.counter = st1.counter + d →
      (∀ x ∈ L, x.id < d) →
      (check_indentation fuel (selfId + d) res lines ln ind st2).result =
        (check_indentation fuel selfId res lines ln ind st1).result ∧
      (((check_indentation fuel (selfId + d) res lines ln ind st2).out =
          (check_indentation fuel selfId res lines ln ind st1).out ∧
        (check_indentation fuel (selfId + d) res lines ln ind st2).st.stack =
          L ++ (check_indentation fuel selfId res lines ln ind st1).st.stack.map (shiftNode d) ∧
        (check_indentation fuel (selfId + d) res lines ln ind st2).st.counter =
          (check_indentation fuel selfId res lines ln ind st1).st.counter + d ∧
        (check_indentation fuel selfId res lines ln ind st1).st.stack.length + 1 ≥
          st1.stack.length) ∨
       (st1.stack = [] ∧ L ≠ [] ∧
        (check_indentation fuel selfId res lines ln ind st1).out = .err .indexError)) := by
  intro fuel
  induction fuel with
  | zero =>
    intro selfId res lines ln ind st1 L d st2 hstack hc hL
    rw [check_indentation, check_indentation]
    exact ⟨rfl, Or.inl ⟨rfl, hstack, hc, by dsimp only; omega⟩⟩
  | succ f ih =>
    intro selfId res lines ln ind st1 L d st2 hstack hc hL
    rw [check_indentation, check_indentation]
    simp only [create_node]
    simp only [hstack, hc]
    split
    · rename_i hlt
      generalize hstmt : lines.get ⟨ln, hlt⟩ = stmt
      split
      · -- BEGIN
        obtain ⟨ihRes, ihDisj⟩ := ih st1.counter res lines (ln + 1) (ind + INDENT_SHIFT)
          ⟨st1.stack ++ [⟨st1.counter, stmt.words.headD "", ln, ln, ind, stmt⟩],
            st1.counter + 1,
            st1.children ++ [⟨st1.counter, stmt.words.headD "", ln, ln, ind, stmt⟩]⟩
          L d
          ⟨(L ++ st1.stack.map (shiftNode d)) ++
              [⟨st1.counter + d, stmt.words.headD "", ln, ln, ind, stmt⟩],
            st1.counter + d + 1,
            st2.children ++ [⟨st1.counter + d, stmt.words.headD "", ln, ln, ind, stmt⟩]⟩
          (by dsimp only; simp [shiftNode, List.append_assoc])
          (by dsimp only; omega) hL
        rw [ihRes]
        rcases ihDisj with ⟨ihOut, ihStack, ihCounter, ihLen⟩ | ⟨habs, -, -⟩
        · rw [ihOut]
          split
          · -- return branch
            split
            · -- returned an index: both runs continue there
              have hcil : ∀ r, check_indent_level r
                  ⟨st1.counter + d, stmt.words.headD "", ln, ln, ind, stmt⟩ =
                  check_indent_level r
                  ⟨st1.counter, stmt.words.headD "", ln, ln, ind, stmt⟩ := fun _ => rfl
              rw [hcil]
              obtain ⟨cRes, cDisj⟩ := ih selfId _ lines _ ind _ L d _ ihStack ihCounter hL
              refine ⟨cRes, ?_⟩
              rcases cDisj with ⟨a, b, c, len⟩ | ⟨cEmp, cLne, cOut⟩
              · refine Or.inl ⟨a, b, c, ?_⟩
                dsimp only at ihLen
                simp only [List.length_append, List.length_singleton] at ihLen
                omega
              · refine Or.inr ⟨?_, cLne, cOut⟩
                dsimp only at ihLen
                simp only [List.length_append, List.length_singleton] at ihLen
                rw [cEmp] at ihLen
                simp only [List.length_nil] at ihLen
                exact List.length_eq_zero.mp (by omega)
            · -- returned None: TypeError in both runs
              exact ⟨rfl, Or.inl ⟨rfl, ihStack, ihCounter, by
                dsimp only at ihLen ⊢
                simp only [List.length_append, List.length_singleton] at ihLen
                omega⟩⟩
          · -- propagated error or fuel exhaustion
            exact ⟨ihRes, Or.inl ⟨ihOut, ihStack, ihCounter, by
              dsimp only at ihLen
              simp only [List.length_append, List.length_singleton] at ihLen
              omega⟩⟩
        · dsimp only at habs
          exact absurd habs (by simp)
      · split
        · -- END
          rename_i hB hE
          rcases hgl : st1.stack.getLast? with _ | top
          · have hemp : st1.stack = [] := by simpa using hgl
            simp only [hgl]
            rcases hgl2 : L.getLast? with _ | t
            · have hLnil : L = [] := by simpa using hgl2
              subst hLnil
              simp only [hemp, List.map_nil, List.append_nil, List.getLast?_nil]
              refine ⟨?_, Or.inl ⟨?_, ?_, ?_, ?_⟩⟩ <;>
                  first
                  | trivial
                  | (dsimp only; omega)
                  | omega
                  | simp [hemp]
                  | simp
            · have hLne : L ≠ [] := by intro h; subst h; simp at hgl2
              have hgl2' : (L ++ st1.stack.map (shiftNode d)).getLast? = some t := by
                rw [hemp]; simpa using hgl2
              simp only [hgl2']
              by_cases hname : ("end" ++ t.tag) = stmt.words.headD ""
              · simp only [if_pos hname]
                have htid : t.id ≠ selfId + d := by
                  have := hL t (getLast?_mem L t hgl2)
                  omega
                simp only [if_pos htid]
                exact ⟨by trivial, Or.inr ⟨hemp, hLne, by trivial⟩⟩
              · simp only [if_neg hname]
                have hloop := end_mismatch_loop lines ln stmt
                  (List.get?_eq_some.mpr ⟨hlt, hstmt⟩) (by simpa using hB) hE
                  f (selfId + d) res ind
                  ⟨L ++ st1.stack.map (shiftNode d), st1.counter + d + 1, st2.children⟩ t
                  (by dsimp only; exact hgl2') hname
                exact ⟨hloop.2, Or.inr ⟨hemp, hLne, by trivial⟩⟩
          · have hne : st1.stack ≠ [] := by intro h; rw [h] at hgl; simp at hgl
            have hgl2 : (L ++ st1.stack.map (shiftNode d)).getLast? = some (shiftNode d top) := by
              rw [List.getLast?_append_of_ne_nil L (by simpa using hne), map_getLast?, hgl]
              rfl
            simp only [hgl, hgl2, shiftNode]
            split
            · -- matching end-tag name
              by_cases hid : top.id = selfId
              · simp only [if_neg (show ¬(top.id + d ≠ selfId + d) by omega),
                  if_neg (show ¬(top.id ≠ selfId) by omega),
                  if_pos (show top.id + d = selfId + d by omega), if_pos hid]
                refine ⟨?_, Or.inl ⟨?_, ?_, ?_, ?_⟩⟩ <;>
                  first
                  | trivial
                  | (dsimp only; omega)
                  | omega
                  | (dsimp only
                     rw [List.dropLast_append_of_ne_nil L (by simpa using hne), map_dropLast])
                  | rw [List.dropLast_append_of_ne_nil L (by simpa using hne), map_dropLast]
                  | (dsimp only; simp only [List.length_dropLast]; omega)
                  | (simp only [List.length_dropLast]; omega)
              · simp only [if_pos (show top.id + d ≠ selfId + d by omega),
                  if_pos (show top.id ≠ selfId from hid)]
                refine ⟨?_, Or.inl ⟨?_, ?_, ?_, ?_⟩⟩ <;>
                  first
                  | trivial
                  | (dsimp only; omega)
                  | omega
            · -- name mismatch: both runs loop on the same line
              obtain ⟨ihRes, ihDisj⟩ := ih selfId res lines ln ind
                ⟨st1.stack, st1.counter + 1, st1.children⟩ L d
                ⟨L ++ st1.stack.map (shiftNode d), st1.counter + d + 1, st2.children⟩
                rfl (by dsimp only; omega) hL
              refine ⟨ihRes, ?_⟩
              rcases ihDisj with ⟨a, b, c, len⟩ | ⟨hempty, -, -⟩
              · exact Or.inl ⟨a, b, c, by dsimp only at len; omega⟩
              · dsimp only at hempty
                exact absurd hempty hne
        · split
          · -- MIDDLE
            rcases hgl : st1.stack.getLast? with _ | top
            · have hemp : st1.stack = [] := by simpa using hgl
              simp only [hgl]
              rcases hgl2 : L.getLast? with _ | t
              · have hLnil : L = [] := by simpa using hgl2
                subst hLnil
                simp only [hemp, List.map_nil, List.append_nil, List.getLast?_nil]
                refine ⟨?_, Or.inl ⟨?_, ?_, ?_, ?_⟩⟩ <;>
                  first
                  | trivial
                  | (dsimp only; omega)
                  | omega
                  | simp [hemp]
                  | simp
              · have hLne : L ≠ [] := by intro h; subst h; simp at hgl2
                have hgl2' : (L ++ st1.stack.map (shiftNode d)).getLast? = some t := by
                  rw [hemp]; simpa using hgl2
                simp only [hgl2']
                rcases hgt : get_tuple JINJA_STATEMENT_TAG_NAMES t.tag with _ | tup
                · simp only [hgt]
                  exact ⟨by trivial, Or.inr ⟨hemp, hLne, by trivial⟩⟩
                · simp only [hgt]
                  split
                  · have htid : t.id ≠ selfId + d := by
                      have := hL t (getLast?_mem L t hgl2)
                      omega
                    simp only [if_pos htid]
                    exact ⟨by trivial, Or.inr ⟨hemp, hLne, by trivial⟩⟩
                  · exact ⟨by trivial, Or.inr ⟨hemp, hLne, by trivial⟩⟩
            · have hne : st1.stack ≠ [] := by intro h; rw [h] at hgl; simp at hgl
              have hgl2 : (L ++ st1.stack.map (shiftNode d)).getLast? =
                  some (shiftNode d top) := by
                rw [List.getLast?_append_of_ne_nil L (by simpa using hne), map_getLast?, hgl]
                rfl
              simp only [hgl, hgl2, shiftNode]
              rcases hgt : get_tuple JINJA_STATEMENT_TAG_NAMES top.tag with _ | tup
              · simp only [hgt]
                refine ⟨?_, Or.inl ⟨?_, ?_, ?_, ?_⟩⟩ <;>
                  first
                  | trivial
                  | (dsimp only; omega)
                  | omega
              · simp only [hgt]
                split
                · -- legal middle tag for the open family
                  by_cases hid : top.id = selfId
                  · simp only [if_neg (show ¬(top.id + d ≠ selfId + d) by omega),
                      if_neg (show ¬(top.id ≠ selfId) by omega)]
                    obtain ⟨ihRes, ihDisj⟩ := ih st1.counter res lines (ln + 1)
                      (top.expected_indent + INDENT_SHIFT)
                      ⟨st1.stack, st1.counter + 1,
                        st1.children ++ [⟨st1.counter, stmt.words.headD "", ln, ln,
                          top.expected_indent, stmt⟩]⟩ L d
                      ⟨L ++ st1.stack.map (shiftNode d), st1.counter + d + 1,
                        st2.children ++ [⟨st1.counter + d, stmt.words.headD "", ln, ln,
                          top.expected_indent, stmt⟩]⟩
                      rfl (by dsimp only; omega) hL
                    rw [ihRes]
                    rcases ihDisj with ⟨ihOut, ihStack, ihCounter, ihLen⟩ | ⟨hempty, -, -⟩
                    · rw [ihOut]
                      split
                      · exact ⟨rfl, Or.inl ⟨rfl, ihStack, ihCounter, by
                          dsimp only at ihLen ⊢; omega⟩⟩
                      · exact ⟨ihRes, Or.inl ⟨ihOut, ihStack, ihCounter, by
                          dsimp only at ihLen; omega⟩⟩
                    · dsimp only at hempty
                      exact absurd hempty hne
                  · simp only [if_pos (show top.id + d ≠ selfId + d by omega),
                      if_pos (show top.id ≠ selfId from hid)]
                    refine ⟨?_, Or.inl ⟨?_, ?_, ?_, ?_⟩⟩ <;>
                  first
                  | trivial
                  | (dsimp only; omega)
                  | omega
                · -- unsupported middle tag
                  refine ⟨?_, Or.inl ⟨?_, ?_, ?_, ?_⟩⟩ <;>
                  first
                  | trivial
                  | (dsimp only; omega)
                  | omega
          · split
            · -- INTERMEDIATE
              have hcil : ∀ r, check_indent_level r
                  ⟨st1.counter + d, stmt.words.headD "", ln, ln, ind, stmt⟩ =
                  check_indent_level r
                  ⟨st1.counter, stmt.words.headD "", ln, ln, ind, stmt⟩ := fun _ => rfl
              rw [hcil]
              obtain ⟨cRes, cDisj⟩ := ih selfId
                (check_indent_level res ⟨st1.counter, stmt.words.headD "", ln, ln, ind, stmt⟩)
                lines (ln + 1) ind
                ⟨st1.stack, st1.counter + 1,
                  st1.children ++ [⟨st1.counter, stmt.words.headD "", ln, ln, ind, stmt⟩]⟩ L d
                ⟨L ++ st1.stack.map (shiftNode d), st1.counter + d + 1,
                  st2.children ++ [⟨st1.counter + d, stmt.words.headD "", ln, ln, ind, stmt⟩]⟩
                rfl (by dsimp only; omega) hL
              refine ⟨cRes, ?_⟩
              rcases cDisj with ⟨a, b, c, len⟩ | ⟨hempty, hLne, hout⟩
              · exact Or.inl ⟨a, b, c, by dsimp only at len; omega⟩
              · dsimp only at hempty
                exact Or.inr ⟨hempty, hLne, hout⟩
            · -- unknown tag
              refine ⟨?_, Or.inl ⟨?_, ?_, ?_, ?_⟩⟩ <;>
                  first
                  | trivial
                  | (dsimp only; omega)
                  | omega
    · -- EOF
      exact ⟨rfl, Or.inl ⟨rfl, hstack, hc, by dsimp only; omega⟩⟩

/-- Claim C2: running the checker twice on the same unmodified input yields
identical diagnostics and an identical outcome — the module-level
`jinja_node_stack` and class-level `Node.children` left behind by the first
run never affect the second run's result.  The second run here starts from
the exact shared state the first run left behind. -/
theorem c2_second_run_identical (lines : List JinjaStatement) (fuel : Nat) :
    (runCheck fuel lines (runCheck fuel lines initState).st).result =
      (runCheck fuel lines initState).result ∧
    (runCheck fuel lines (runCheck fuel lines initState).st).out =
      (runCheck fuel lines initState).out := by
  have hciv := counter_invariant fuel 0 [] lines 0 0 ⟨[], 1, []⟩
    (by intro x hx; simp at hx)
  have h := master_bisim fuel 0 [] lines 0 0 ⟨[], 1, []⟩
    (check_indentation fuel 0 [] lines 0 0 ⟨[], 1, []⟩).st.stack
    (check_indentation fuel 0 [] lines 0 0 ⟨[], 1, []⟩).st.counter
    ⟨(check_indentation fuel 0 [] lines 0 0 ⟨[], 1, []⟩).st.stack,
      (check_indentation fuel 0 [] lines 0 0 ⟨[], 1, []⟩).st.counter + 1,
      (check_indentation fuel 0 [] lines 0 0 ⟨[], 1, []⟩).st.children⟩
    (by simp)
    (by dsimp only; omega)
    hciv.1
  rw [Nat.zero_add] at h
  obtain ⟨hres, hdisj⟩ := h
  rcases hdisj with ⟨hout, -, -, -⟩ | ⟨-, hLne, hie⟩
  · constructor
    · simp only [runCheck, initState]
      exact hres
    · simp only [runCheck, initState]
      exact hout
  · exfalso
    exact hLne (indexError_empty_stack fuel 0 [] lines 0 0 ⟨[], 1, []⟩ hie)
